import Mathlib

/-!
Shallow embedding of `core/models.py` of the brasil.io repository: the
dynamic-model engine (type catalog, schema synthesizer, descriptor
registry, query builder, choice extractor), together with theorems
checking the natural-language specification against it.
-/

/- ## Python string primitives used by the source -/

/-- Embeds Python `s.replace(c, '')` for a one-character pattern: removes every
occurrence of the character. -/
def strip_char (c : Char) (s : String) : String :=
  ⟨s.data.filter (fun ch => ch ≠ c)⟩

/-- Embeds Python `s.replace(a, b)` for one-character pattern and replacement. -/
def replace_char (a b : Char) (s : String) : String :=
  ⟨s.data.map (fun ch => if ch = a then b else ch)⟩

/-- Embeds Python `s.strip()`: drops leading and trailing whitespace. -/
def py_strip (s : String) : String :=
  ⟨((s.data.dropWhile Char.isWhitespace).reverse.dropWhile Char.isWhitespace).reverse⟩

/-- Embeds Python `s.lower()`. -/
def py_lower (s : String) : String :=
  ⟨s.data.map Char.toLower⟩

/-- Embeds Python `s.capitalize()`: first character upper-cased, the rest
lower-cased. -/
def py_capitalize (s : String) : String :=
  match s.data with
  | [] => ""
  | c :: rest => ⟨Char.toUpper c :: rest.map Char.toLower⟩

/-- Splits a character list on a separator character, Python `str.split` style
(`''.split(c) = ['']`, separators at the ends produce empty pieces). -/
def split_char (c : Char) : List Char → List (List Char)
  | [] => [[]]
  | x :: xs =>
    let r := split_char c xs
    if x = c then [] :: r
    else
      match r with
      | [] => [[x]]
      | h :: t => (x :: h) :: t

/-- Embeds Python `s.split(c)` for a one-character separator. -/
def py_split (c : Char) (s : String) : List String :=
  (split_char c s.data).map (fun l => ⟨l⟩)

/-- Embeds the Python idiom `x or []` applied to a nullable list column. -/
def pyOrEmpty : Option (List String) → List String
  | none => []
  | some l => l

/- ## Type catalog (`FIELD_TYPES`, models.py lines 12-24) -/

/-- The Django field classes named in the `FIELD_TYPES` catalog, plus the
`SearchVectorField` used for the synthetic search column. -/
inductive DjangoFieldClass
  | BinaryField
  | BooleanField
  | DateField
  | DateTimeField
  | DecimalField
  | EmailField
  | FloatField
  | IntegerField
  | JSONField
  | CharField
  | TextField
  | SearchVectorField
deriving DecidableEq, Repr

/-- Embeds the `FIELD_TYPES` dict: abstract type tag to Django field class. -/
def FIELD_TYPES : List (String × DjangoFieldClass) :=
  [("binary", .BinaryField),
   ("bool", .BooleanField),
   ("date", .DateField),
   ("datetime", .DateTimeField),
   ("decimal", .DecimalField),
   ("email", .EmailField),
   ("float", .FloatField),
   ("integer", .IntegerField),
   ("json", .JSONField),
   ("string", .CharField),
   ("text", .TextField)]

/-- Dictionary lookup `FIELD_TYPES[tag]`, as an `Option` (a missing key raises
`KeyError` in Python). -/
def fieldTypesLookup (tag : String) : Option DjangoFieldClass :=
  (FIELD_TYPES.find? (fun p => p.1 == tag)).map Prod.snd

/- ## Field metadata rows and physical columns -/

/-- A constructed physical column: the result of
`FIELD_TYPES[self.type](**kwargs)` with `kwargs['null'] = self.null`
(models.py lines 364-368). The `null` kwarg is kept as its own component. -/
structure PhysicalColumn where
  ctor : DjangoFieldClass
  options : List (String × String)
  null : Bool
deriving DecidableEq, Repr

/-- The metadata of one `Field` row (core.models.Field), restricted to the
attributes the engine reads. -/
structure FieldMeta where
  name : String
  type : String
  null : Bool
  options : List (String × String)
  has_choices : Bool
  show_on_frontend : Bool
  choices : Option (List String)
deriving DecidableEq, Repr

/-- Embeds `FieldMeta.field_class` (models.py lines 364-368):
`kwargs = self.options or {}; kwargs['null'] = self.null;
return FIELD_TYPES[self.type](**kwargs)`. A type tag absent from the catalog
raises `KeyError` in Python; that failure is embedded as the
`"UnknownFieldType"` error. -/
def FieldMeta.field_class (f : FieldMeta) : Except String PhysicalColumn :=
  match fieldTypesLookup f.type with
  | some fc => .ok ⟨fc, f.options, f.null⟩
  | none => .error "UnknownFieldType"

/-- Embeds the dict comprehension
`fields = {field.name: field.field_class for field in self.fields}`
(models.py lines 242-243): resolving each field in order, failing at the first
field whose type tag is unknown. -/
def resolve_columns : List FieldMeta → Except String (List (String × PhysicalColumn))
  | [] => .ok []
  | f :: rest =>
    match f.field_class with
    | .error e => .error e
    | .ok c =>
      match resolve_columns rest with
      | .error e => .error e
      | .ok cs => .ok ((f.name, c) :: cs)

/-- The synthetic search column `SearchVectorField(null=True)`
(models.py line 244). -/
def searchVectorColumn : PhysicalColumn :=
  ⟨.SearchVectorField, [], true⟩

/-- Embeds models.py lines 242-244: resolve every declared field and then add
`fields['search_data'] = SearchVectorField(null=True)` - the search column is
added unconditionally. -/
def get_model_fields (flds : List FieldMeta) : Except String (List (String × PhysicalColumn)) :=
  match resolve_columns flds with
  | .error e => .error e
  | .ok cols => .ok (cols ++ [("search_data", searchVectorColumn)])

/- ## Indexes (models.py lines 248-258) -/

/-- A derived index: `models.Index(fields=...)` (btree) or
`GinIndex(fields=...)` (gin). -/
inductive Index
  | btree (fields : List String)
  | gin (fields : List String)
deriving DecidableEq, Repr

/-- The column names an index is declared over. -/
def Index.fieldNames : Index → List String
  | .btree l => l
  | .gin l => l

/-- Embeds the index derivation of `Table.get_model` (models.py lines 248-258):
one composite btree index over `ordering` when non-empty; one single-column
btree index per `filtering` column except a column `c` with
`ordering == [c]`; one gin index over `search_data` when `search` is
non-empty. `indexes.append` is embedded as appending to an accumulator. -/
def deriveIndexes (ordering filtering search : List String) : List Index :=
  let indexes : List Index := []
  let indexes := if ordering ≠ [] then indexes ++ [Index.btree ordering] else indexes
  let indexes :=
    if filtering ≠ [] then
      filtering.foldl
        (fun acc field_name =>
          if ordering = [field_name] then acc
          else acc ++ [Index.btree [field_name]])
        indexes
    else indexes
  let indexes := if search ≠ [] then indexes ++ [Index.gin ["search_data"]] else indexes
  indexes

/- ## Query builder (`DynamicModelQuerySet`, models.py lines 62-117) -/

/-- A filter predicate appended to the queryset: an equality filter
`qs.filter(**{field_name: value})` or the full-text predicate
`qs.filter(search_data=SearchQuery(q))` on the synthetic search column. -/
inductive Predicate
  | eq (field : String) (value : String)
  | search (query : String)
deriving DecidableEq, Repr

/-- Embeds Python `params.get(key, None)` on a dict whose stored values may
themselves be `None`. -/
def dict_get (params : List (String × Option String)) (key : String) : Option String :=
  match params.find? (fun p => p.1 == key) with
  | some (_, v) => v
  | none => none

/-- Embeds `DynamicModelQuerySet.apply_filters` (models.py lines 64-77),
returning the list of predicates appended to the queryset (conjunctive).
`model_filtering` is `self.model.extra['filtering']` (the code guards on
`is not None`), `model_search` is `self.model.extra['search']`, and `params`
is the caller's `filtering` dict. -/
def apply_filters (model_filtering : Option (List String)) (model_search : List String)
    (params : List (String × Option String)) : List Predicate :=
  match model_filtering with
  | none => []
  | some fl =>
    let qs := fl.foldl
      (fun qs field_name =>
        match dict_get params field_name with
        | some value => qs ++ [Predicate.eq field_name value]
        | none => qs)
      []
    match dict_get params "search" with
    | some q => if q ≠ "" ∧ model_search ≠ [] then qs ++ [Predicate.search q] else qs
    | none => qs

/-- Embeds `field.replace('-', '').strip().lower()` (models.py line 84). -/
def clean_field (field : String) : String :=
  py_lower (py_strip (strip_char '-' field))

/-- Embeds the list comprehension of models.py lines 86-87: the requested
fields kept by the allowed-set membership test. The Python `set(...)` over
`model_ordering + model_filtering` is embedded as the concatenation, which has
the same membership. -/
def apply_ordering_filter (model_ordering model_filtering : List String)
    (query : List String) : List String :=
  let allowed_fields := model_ordering ++ model_filtering
  let clean_allowed := allowed_fields.map clean_field
  query.filter (fun field => clean_allowed.contains (strip_char '-' field))

/-- Embeds `DynamicModelQuerySet.apply_ordering` (models.py lines 79-93).
`some l` means `qs.order_by(*l)` was applied; `none` means no ordering clause
was applied at all. -/
def apply_ordering (model_ordering model_filtering : List String)
    (query : List String) : Option (List String) :=
  let ordering_query := apply_ordering_filter model_ordering model_filtering query
  if ordering_query ≠ [] then some ordering_query
  else if model_ordering ≠ [] then some model_ordering
  else none

/-- The membership test of models.py line 87, phrased directly over the union
of the descriptor's ordering and filtering names: the requested field with all
`'-'` removed equals some allowed name cleaned by `clean_field`. -/
def keeps (model_ordering model_filtering : List String) (field : String) : Bool :=
  (model_ordering ++ model_filtering).any
    (fun a => strip_char '-' field == clean_field a)

/-- State of one `DynamicModelQuerySet` instance as far as `count`
(models.py lines 96-114) observes it: the filter predicates applied so far
(`query.where`), the memoized `self._count`, the result of the
`pg_class.reltuples` statistics lookup (`none` embeds the lookup raising), and
the exact `super().count()` result. -/
structure QueryState where
  predicates : List Predicate
  cached_count : Option Int
  pg_reltuples : Option Int
  exact_count : Int
deriving DecidableEq, Repr

/-- Embeds `DynamicModelQuerySet.count` (models.py lines 96-114): return the
memoized count when present; otherwise, with no WHERE clause, try the
`pg_class` statistics estimate and fall back to the exact count when that
lookup fails; with a WHERE clause, always take the exact count. Returns the
integer and the post-call instance state. -/
def count (s : QueryState) : Int × QueryState :=
  match s.cached_count with
  | some c => (c, s)
  | none =>
    let c : Int :=
      if s.predicates = [] then
        match s.pg_reltuples with
        | some est => est
        | none => s.exact_count
      else
        s.exact_count
    (c, { s with cached_count := some c })

/- ## Schema synthesizer (`DynamicModelMixin`, models.py lines 27-59) -/

/-- Embeds `DynamicModelMixin.create_table` (models.py lines 29-43).
`metaIndexes` is `cls._meta.indexes`; `create_model` is the DDL call made by
the schema editor, given the index list in effect at that moment (it may
raise, embedded as `Except.error`). The result pairs the DDL outcome with the
value of `cls._meta.indexes` after the `finally` block. -/
def create_table (metaIndexes : List Index) (create_indexes_flag : Bool)
    (create_model : List Index → Except String Unit) : Except String Unit × List Index :=
  let indexes := metaIndexes
  let active := if create_indexes_flag then metaIndexes else []
  match create_model active with
  | .ok u => (.ok u, indexes)
  | .error e => (.error e, indexes)

/-- Embeds `DynamicModelMixin.create_indexes` (models.py lines 50-54): one
`add_index` DDL call per declared index, in order. Returns the list of indexes
added. -/
def create_indexes (metaIndexes : List Index) : List Index :=
  metaIndexes.foldl (fun acc index => acc ++ [index]) []

/- ## Choice extractor (`FieldMeta.update_choices`, models.py lines 377-382) -/

/-- Lexicographic order on character lists by code point: the model of the
database's ascending text collation. -/
def chars_le : List Char → List Char → Bool
  | [], _ => true
  | _ :: _, [] => false
  | a :: as, b :: bs => if a = b then chars_le as bs else decide (a < b)

/-- Lexicographic order on strings, the database's `ORDER BY` on a text
column. -/
def str_le (a b : String) : Bool :=
  chars_le a.data b.data

/-- Embeds the queryset chain
`Model.objects.order_by(name).distinct(name).values_list(name, flat=True)`:
the database returns the distinct values of the column in ascending order. -/
def db_distinct_ordered (vals : List String) : List String :=
  (vals.insertionSort (fun a b => str_le a b = true)).dedup

/-- Embeds `FieldMeta.update_choices` (models.py lines 377-382): the cached
`choices` data list becomes the ordered distinct column values, each passed
through `str(...)`. `column_values` is the content of the field's column in
the physical table. -/
def FieldMeta.update_choices (f : FieldMeta) (column_values : List String) : FieldMeta :=
  { f with choices := some ((db_distinct_ordered column_values).map (fun value => toString value)) }

/- ## Tables, compiled models, and the descriptor registry -/

/-- The compiled dynamic model produced by `Table.get_model`
(models.py lines 232-285): model name, physical columns, `Meta.ordering`,
`Meta.indexes`, `Meta.db_table`, and the `extra` dict. -/
structure CompiledModel where
  model_name : String
  fields : List (String × PhysicalColumn)
  meta_ordering : List String
  indexes : List Index
  db_table : String
  extra_filtering : List String
  extra_ordering : List String
  extra_search : List String
deriving DecidableEq, Repr

instance : Inhabited CompiledModel :=
  ⟨{ model_name := "", fields := [], meta_ordering := [], indexes := [],
     db_table := "", extra_filtering := [], extra_ordering := [], extra_search := [] }⟩

/-- The metadata of one `Table` row (core.models.Table), restricted to the
attributes `get_model` reads. `ordering` is non-nullable in the schema;
`filtering` and `search` are nullable array columns. -/
structure Table where
  id : Nat
  dataset_slug : String
  name : String
  ordering : List String
  filtering : Option (List String)
  search : Option (List String)
deriving DecidableEq, Repr

/-- Embeds the `Table.db_table` property (models.py lines 221-226):
`'data_{slug with hyphens removed}_{name with underscores removed}'`. -/
def Table.db_table (t : Table) : String :=
  "data_" ++ strip_char '-' t.dataset_slug ++ "_" ++ strip_char '_' t.name

/-- Embeds the model-name computation of models.py lines 240-241:
`name = slug + '-' + table_name.replace('_', '-')` then capitalize each
hyphen-separated word and join. -/
def Table.model_name (t : Table) : String :=
  let name := t.dataset_slug ++ "-" ++ replace_char '_' '-' t.name
  String.join ((py_split '-' name).map py_capitalize)

/-- Embeds the model-compilation body of `Table.get_model`
(models.py lines 240-283): resolve the columns (adding the synthetic search
column), apply `or []` to the nullable name lists, derive the index set, and
assemble the model with its `Meta` options and `extra` dict. -/
def Table.compile (t : Table) (flds : List FieldMeta) : Except String CompiledModel :=
  match get_model_fields flds with
  | .error e => .error e
  | .ok fields =>
    let ordering := t.ordering
    let filtering := pyOrEmpty t.filtering
    let search := pyOrEmpty t.search
    .ok
      { model_name := t.model_name
        fields := fields
        meta_ordering := ordering
        indexes := deriveIndexes ordering filtering search
        db_table := t.db_table
        extra_filtering := filtering
        extra_ordering := ordering
        extra_search := search }

/-- The process-wide `DYNAMIC_MODEL_REGISTRY` dict, embedded as an association
list in which the leftmost binding for a key is the authoritative one (a dict
assignment prepends). -/
abbrev Registry : Type := List (Nat × CompiledModel)

/-- Dict lookup `DYNAMIC_MODEL_REGISTRY[table_id]`. -/
def registryLookup (reg : Registry) (table_id : Nat) : Option CompiledModel :=
  match List.find? (fun p => p.1 == table_id) reg with
  | some (_, m) => some m
  | none => none

/-- Dict assignment `DYNAMIC_MODEL_REGISTRY[table_id] = m`. -/
def registryStore (reg : Registry) (table_id : Nat) (m : CompiledModel) : Registry :=
  (table_id, m) :: reg

/-- Embeds `Table.get_model` (models.py lines 232-285): return the registered
model when `cache` holds and the table id is registered; otherwise compile the
model and register it under the table id. Returns the model and the registry
after the call. -/
def Table.get_model (t : Table) (flds : List FieldMeta) (cache : Bool) (reg : Registry) :
    Except String (CompiledModel × Registry) :=
  match (if cache then registryLookup reg t.id else none) with
  | some m => .ok (m, reg)
  | none =>
    match t.compile flds with
    | .error e => .error e
    | .ok m => .ok (m, registryStore reg t.id m)

/-- Whether a compiled model's column set contains the synthetic search
column. -/
def hasSearchColumn (m : CompiledModel) : Bool :=
  m.fields.any (fun p => p.1 == "search_data")

/- ## Concrete fixtures used by counterexamples and witnesses -/

/-- A field whose type tag is in the catalog. -/
def goodField : FieldMeta :=
  { name := "title", type := "string", null := true,
    options := [("max_length", "255")],
    has_choices := false, show_on_frontend := false, choices := none }

/-- A field whose type tag is absent from the catalog. -/
def badField : FieldMeta :=
  { name := "uid", type := "uuid", null := true, options := [],
    has_choices := false, show_on_frontend := false, choices := none }

/-- A choiceable field (`has_choices` and `show_on_frontend` both set). -/
def choiceField : FieldMeta :=
  { name := "status", type := "string", null := true, options := [],
    has_choices := true, show_on_frontend := true, choices := none }

/-- A table whose `search` set is empty (NULL in the metadata store). -/
def tableNoSearch : Table :=
  { id := 3, dataset_slug := "ds", name := "t",
    ordering := [], filtering := none, search := none }

/-- A table with a non-empty `search` set. -/
def tableWithSearch : Table :=
  { id := 2, dataset_slug := "my-ds", name := "tb_one",
    ordering := ["title"], filtering := some ["title"], search := some ["title"] }

/-- The model compiled from `tableWithSearch` and `goodField`. -/
def modelWithSearch : CompiledModel :=
  match tableWithSearch.compile [goodField] with
  | .ok m => m
  | .error _ => default

/-- A table used to exercise the descriptor registry. -/
def tableReg : Table :=
  { id := 7, dataset_slug := "d", name := "t",
    ordering := ["title"], filtering := some [], search := none }

/-- The model compiled from `tableReg` and `goodField`. -/
def modelReg : CompiledModel :=
  match tableReg.compile [goodField] with
  | .ok m => m
  | .error _ => default

/- ## Helper lemmas -/

/-- Folding an append-one-element step is a `filterMap`. -/
lemma foldl_snoc_filterMap {α β : Type} (g : α → Option β) :
    ∀ (l : List α) (init : List β),
      l.foldl (fun acc a => match g a with | some b => acc ++ [b] | none => acc) init
        = init ++ l.filterMap g := by
  intro l
  induction l with
  | nil => intro init; simp
  | cons a t ih =>
    intro init
    cases hg : g a <;>
      simp [List.foldl_cons, hg, List.filterMap_cons, ih, List.append_assoc]

/-- Folding a plain snoc is an append. -/
lemma foldl_snoc_id {α : Type} :
    ∀ (l : List α) (init : List α),
      l.foldl (fun acc a => acc ++ [a]) init = init ++ l := by
  intro l
  induction l with
  | nil => intro init; simp
  | cons a t ih => intro init; simp [List.foldl_cons, ih]

/-- Membership in the cleaned allowed list is the `keeps` test. -/
lemma contains_map_clean (l : List String) (x : String) :
    (l.map clean_field).contains x = l.any (fun a => x == clean_field a) := by
  induction l with
  | nil => rfl
  | cons a t ih =>
    simp only [List.map_cons, List.contains_cons, ih, List.any_cons]

/-- The list-comprehension filter of `apply_ordering` is the filter by the
`keeps` membership test. -/
lemma apply_ordering_filter_eq_keeps (mo mf : List String) (q : List String) :
    apply_ordering_filter mo mf q = q.filter (keeps mo mf) := by
  unfold apply_ordering_filter keeps
  simp only [contains_map_clean]

/-- Unfolding of the `keeps` membership test: the requested field with every
`'-'` removed must literally equal some allowed name's cleaned form. -/
lemma keeps_iff (mo mf : List String) (field : String) :
    keeps mo mf field = true ↔
      ∃ a, (a ∈ mo ∨ a ∈ mf) ∧ strip_char '-' field = clean_field a := by
  unfold keeps
  rw [List.any_eq_true]
  constructor
  · rintro ⟨a, ha, he⟩
    rw [List.mem_append] at ha
    exact ⟨a, ha, by simpa using he⟩
  · rintro ⟨a, ha, he⟩
    exact ⟨a, List.mem_append.mpr ha, by simpa using he⟩

/- ## Claim theorems -/

/-- C1. `apply_ordering` orders by exactly the requested fields that survive
the allowed-set membership test (allowed set = the union of the descriptor's
`ordering` and `filtering` names), preserving the caller's order and the
descending markers; when no requested field survives it orders by the
descriptor's default `ordering`; when that is also empty it applies no
ordering clause. -/
theorem c1_apply_ordering_resolution (mo mf q : List String) :
    apply_ordering mo mf q =
      if q.filter (keeps mo mf) ≠ [] then some (q.filter (keeps mo mf))
      else if mo ≠ [] then some mo
      else none := by
  unfold apply_ordering
  rw [apply_ordering_filter_eq_keeps]

/-- C6 counterexample. The requested field `"NAME"` differs from the allowed
filtering name `"name"` only in letter case, yet it is dropped: the resolved
ordering keeps nothing and, the default ordering being empty, no ordering
clause is applied at all. -/
theorem c6_counterexample :
    apply_ordering_filter [] ["name"] ["NAME"] = [] ∧
    apply_ordering [] ["name"] ["NAME"] = none := by
  constructor <;> rfl

/-- C6 amended. Membership is tested with every `'-'` removed from the
requested field and compared case-sensitively against the allowed
(`ordering` union `filtering`) names normalized by removing `'-'`, stripping
whitespace and lowercasing: a requested field is kept exactly when its
dash-stripped form equals the normalized form of some allowed name. Dash
markers (leading or not) are therefore ignored, but a requested field whose
letter case differs from the normalized (lowercased) allowed name is
dropped. -/
theorem c6_membership_amended (mo mf q : List String) (field : String)
    (hq : field ∈ q) :
    field ∈ apply_ordering_filter mo mf q ↔
      ∃ a, (a ∈ mo ∨ a ∈ mf) ∧ strip_char '-' field = clean_field a := by
  rw [apply_ordering_filter_eq_keeps, List.mem_filter]
  simp only [hq, true_and]
  exact keeps_iff mo mf field

/-- C6 witness: a requested field carrying a descending marker matches the
allowed descending-marked ordering name and is kept. -/
theorem c6_membership_amended_witness :
    "created_at" ∈ apply_ordering_filter ["-created_at"] [] ["created_at"] :=
  (c6_membership_amended ["-created_at"] [] ["created_at"] "created_at"
      (by simp)).mpr
    ⟨"-created_at", Or.inl (by simp), by decide⟩


/-- The equality-filter loop of `apply_filters` written as a `filterMap`. -/
lemma apply_filters_loop_eq (params : List (String × Option String)) :
    ∀ (fl : List String) (init : List Predicate),
      fl.foldl
          (fun qs field_name =>
            match dict_get params field_name with
            | some value => qs ++ [Predicate.eq field_name value]
            | none => qs)
          init
        = init ++ fl.filterMap (fun fn => (dict_get params fn).map (fun v => Predicate.eq fn v)) := by
  intro fl
  induction fl with
  | nil => intro init; simp
  | cons a t ih =>
    intro init
    cases hg : dict_get params a <;>
      simp [List.foldl_cons, hg, List.filterMap_cons, ih, List.append_assoc]

/-- A search predicate never comes from the equality-filter loop. -/
lemma search_notin_loop (fl : List String) (params : List (String × Option String))
    (q : String) :
    Predicate.search q ∉
      fl.filterMap (fun fn => (dict_get params fn).map (fun v => Predicate.eq fn v)) := by
  intro hmem
  rcases List.mem_filterMap.mp hmem with ⟨fn, _, hsome⟩
  rcases Option.map_eq_some'.mp hsome with ⟨v', _, heqc⟩
  cases heqc

/-- Membership in the search tail of `apply_filters`. -/
lemma mem_search_tail (se : List String) (o : Option String) (p : Predicate) :
    (p ∈ (match o with
          | some q => if q ≠ "" ∧ se ≠ [] then [Predicate.search q] else []
          | none => ([] : List Predicate))) ↔
      ∃ q, o = some q ∧ p = Predicate.search q ∧ q ≠ "" ∧ se ≠ [] := by
  cases o with
  | none => simp
  | some q =>
    by_cases hcond : q ≠ "" ∧ se ≠ [] <;> simp [hcond]

/-- C2. `apply_filters` appends one equality predicate per declared filtering
column that appears in the caller's params with a non-null value (in the
declared order), never appends an equality predicate for a key absent from
the filtering set (unknown keys are silently ignored), and appends the
full-text predicate exactly when the descriptor declares search columns and
the params carry a non-empty `search` value; the predicates compose
conjunctively as one list. -/
theorem c2_apply_filters_characterization (fl se : List String)
    (params : List (String × Option String)) :
    (apply_filters (some fl) se params =
      fl.filterMap (fun fn => (dict_get params fn).map (fun v => Predicate.eq fn v)) ++
        (match dict_get params "search" with
         | some q => if q ≠ "" ∧ se ≠ [] then [Predicate.search q] else []
         | none => [])) ∧
    (∀ f v, Predicate.eq f v ∈ apply_filters (some fl) se params → f ∈ fl) ∧
    (∀ q, Predicate.search q ∈ apply_filters (some fl) se params ↔
      dict_get params "search" = some q ∧ q ≠ "" ∧ se ≠ []) := by
  have hmain :
      apply_filters (some fl) se params =
        fl.filterMap (fun fn => (dict_get params fn).map (fun v => Predicate.eq fn v)) ++
          (match dict_get params "search" with
           | some q => if q ≠ "" ∧ se ≠ [] then [Predicate.search q] else []
           | none => []) := by
    show
      (let qs := fl.foldl
        (fun qs field_name =>
          match dict_get params field_name with
          | some value => qs ++ [Predicate.eq field_name value]
          | none => qs)
        []
      match dict_get params "search" with
      | some q => if q ≠ "" ∧ se ≠ [] then qs ++ [Predicate.search q] else qs
      | none => qs) = _
    rw [apply_filters_loop_eq params fl []]
    cases dict_get params "search" with
    | none => simp
    | some q =>
      by_cases hcond : q ≠ "" ∧ se ≠ [] <;> simp [hcond]
  refine ⟨hmain, ?_, ?_⟩
  · intro f v hmem
    rw [hmain] at hmem
    rcases List.mem_append.mp hmem with h | h
    · rcases List.mem_filterMap.mp h with ⟨fn, hfn, hsome⟩
      rcases Option.map_eq_some'.mp hsome with ⟨v', _, heqc⟩
      cases heqc
      exact hfn
    · rcases (mem_search_tail se (dict_get params "search") (Predicate.eq f v)).mp h
        with ⟨q, _, hp, _⟩
      cases hp
  · intro q
    rw [hmain, List.mem_append, mem_search_tail]
    constructor
    · rintro (h | ⟨q', hs, hpq, hc1, hc2⟩)
      · exact absurd h (search_notin_loop fl params q)
      · injection hpq with hq
        subst hq
        exact ⟨hs, hc1, hc2⟩
    · rintro ⟨hs, hc1, hc2⟩
      exact Or.inr ⟨q, hs, rfl, hc1, hc2⟩

/-- C3. `count` is memoized per queryset instance: a second call returns the
first call's integer and leaves the state unchanged. On a first call with no
filter predicate applied it returns the `pg_class` statistics estimate when
that lookup succeeds and the exact count when the lookup fails (the failure
is swallowed, not surfaced); with any filter predicate applied it returns the
exact count regardless of the statistics. -/
theorem c3_count_memo_and_fallback (s : QueryState) (p : Predicate)
    (ps : List Predicate) (est ex : Int) (pg : Option Int) :
    count ((count s).2) = ((count s).1, (count s).2) ∧
    (count ⟨[], none, some est, ex⟩).1 = est ∧
    (count ⟨[], none, none, ex⟩).1 = ex ∧
    (count ⟨p :: ps, none, pg, ex⟩).1 = ex := by
  refine ⟨?_, rfl, rfl, rfl⟩
  cases hc : s.cached_count <;> simp [count, hc]

/-- The filtering loop of the index derivation written as a `filterMap`. -/
lemma deriveIndexes_loop_eq (o : List String) :
    ∀ (f : List String) (init : List Index),
      f.foldl
          (fun acc field_name =>
            if o = [field_name] then acc else acc ++ [Index.btree [field_name]])
          init
        = init ++ f.filterMap (fun c => if o = [c] then none else some (Index.btree [c])) := by
  intro f
  induction f with
  | nil => intro init; simp
  | cons a t ih =>
    intro init
    simp only [List.foldl_cons]
    by_cases h : o = [a]
    · rw [if_pos h, List.filterMap_cons_none (by rw [if_pos h])]
      exact ih init
    · rw [if_neg h, List.filterMap_cons_some (by rw [if_neg h])]
      rw [ih (init ++ [Index.btree [a]])]
      simp [List.append_assoc]

/-- The index derivation written as a concatenation of its three groups. -/
lemma deriveIndexes_eq_groups (o f s : List String) :
    deriveIndexes o f s =
      (if o = [] then [] else [Index.btree o]) ++
        f.filterMap (fun c => if o = [c] then none else some (Index.btree [c])) ++
        (if s = [] then [] else [Index.gin ["search_data"]]) := by
  have hstep : ∀ init : List Index,
      (if f ≠ [] then
        f.foldl
          (fun acc field_name =>
            if o = [field_name] then acc else acc ++ [Index.btree [field_name]])
          init
      else init)
        = init ++ f.filterMap (fun c => if o = [c] then none else some (Index.btree [c])) := by
    intro init
    by_cases hf : f = []
    · subst hf
      simp
    · rw [if_pos hf]
      exact deriveIndexes_loop_eq o f init
  simp only [deriveIndexes]
  rw [hstep]
  by_cases ho : o = [] <;> by_cases hs : s = [] <;>
    simp [ho, hs, List.append_assoc]

/-- C4. The derived index set is exactly: one composite btree index over the
ordering columns (in order) when ordering is non-empty, one single-column
btree index per filtering column except a column `c` with `ordering = [c]`,
and one gin index over the synthetic search column when search is non-empty;
in particular with `ordering = ["x"]` and `filtering = ["x"]` exactly one
derived index references `x`. -/
theorem c4_index_derivation (o f s : List String) :
    (deriveIndexes o f s =
      (if o = [] then [] else [Index.btree o]) ++
        f.filterMap (fun c => if o = [c] then none else some (Index.btree [c])) ++
        (if s = [] then [] else [Index.gin ["search_data"]])) ∧
    (∀ s2, ((deriveIndexes ["x"] ["x"] s2).filter
      (fun i => i.fieldNames.contains "x")).length = 1) := by
  refine ⟨deriveIndexes_eq_groups o f s, ?_⟩
  intro s2
  rw [deriveIndexes_eq_groups]
  by_cases hs : s2 = [] <;> simp [hs] <;> rfl

/-- Evaluation of `create_table`: the DDL runs on the index list selected by
the flag, and the declared index list is restored on both exit paths. -/
lemma create_table_eq (idx : List Index) (c : Bool)
    (create_model : List Index → Except String Unit) :
    create_table idx c create_model = (create_model (if c then idx else []), idx) := by
  simp only [create_table]
  cases hm : create_model (if c then idx else []) <;> simp [hm]

/-- C7. `create_table` with `create_indexes` disabled issues the CREATE TABLE
DDL with an empty index set, and on every exit path - normal return as well
as a DDL exception - the model's declared index list is restored, so a later
`create_indexes` call still adds the full derived index set. -/
theorem c7_create_table_restores_indexes (idx : List Index) (c : Bool)
    (create_model : List Index → Except String Unit) :
    (create_table idx false create_model).1 = create_model [] ∧
    (create_table idx c create_model).2 = idx ∧
    create_indexes ((create_table idx c create_model).2) = idx := by
  refine ⟨?_, ?_, ?_⟩
  · rw [create_table_eq]
    simp
  · rw [create_table_eq]
  · rw [create_table_eq]
    show create_indexes idx = idx
    unfold create_indexes
    rw [foldl_snoc_id]
    simp

/-- Successful compilation characterized by the column resolution. -/
lemma compile_eq_ok (t : Table) (flds : List FieldMeta)
    (cols : List (String × PhysicalColumn)) (h : resolve_columns flds = .ok cols) :
    t.compile flds = .ok
      { model_name := t.model_name
        fields := cols ++ [("search_data", searchVectorColumn)]
        meta_ordering := t.ordering
        indexes := deriveIndexes t.ordering (pyOrEmpty t.filtering) (pyOrEmpty t.search)
        db_table := t.db_table
        extra_filtering := pyOrEmpty t.filtering
        extra_ordering := t.ordering
        extra_search := pyOrEmpty t.search } := by
  unfold Table.compile get_model_fields
  rw [h]

/-- Failed column resolution propagates through compilation. -/
lemma compile_eq_error (t : Table) (flds : List FieldMeta) (e : String)
    (h : resolve_columns flds = .error e) :
    t.compile flds = .error e := by
  unfold Table.compile get_model_fields
  rw [h]

/-- The gin index appears among the derived indexes exactly when the search
set is non-empty. -/
lemma gin_mem_iff (o f s : List String) :
    Index.gin ["search_data"] ∈ deriveIndexes o f s ↔ s ≠ [] := by
  rw [deriveIndexes_eq_groups]
  by_cases ho : o = [] <;> by_cases hs : s = [] <;>
    simp [ho, hs, List.mem_append, List.mem_filterMap]

/-- C5 counterexample. For a table whose `search` set is empty, the compiled
model still contains the synthetic `search_data` column: the column is added
unconditionally, refuting the claimed equivalence. -/
theorem c5_counterexample :
    pyOrEmpty tableNoSearch.search = [] ∧
    Except.map hasSearchColumn (tableNoSearch.compile [goodField]) = Except.ok true := by
  constructor <;> rfl

/-- C5 amended. Every successfully compiled model contains the synthetic
`search_data` column, whether or not the table's `search` set is empty; only
the gin index over that column is conditional, present exactly when `search`
is non-empty. -/
theorem c5_search_column_amended (t : Table) (flds : List FieldMeta)
    (m : CompiledModel) (h : t.compile flds = .ok m) :
    "search_data" ∈ m.fields.map Prod.fst ∧
    (Index.gin ["search_data"] ∈ m.indexes ↔ pyOrEmpty t.search ≠ []) := by
  cases hrc : resolve_columns flds with
  | error e =>
    rw [compile_eq_error t flds e hrc] at h
    cases h
  | ok cols =>
    rw [compile_eq_ok t flds cols hrc] at h
    injection h with h
    subst h
    refine ⟨?_, gin_mem_iff _ _ _⟩
    simp

/-- C5 amended witness: the model compiled from `tableWithSearch` carries the
search column, and its search set being non-empty it also carries the gin
index. -/
theorem c5_search_column_amended_witness :
    "search_data" ∈ modelWithSearch.fields.map Prod.fst ∧
    (Index.gin ["search_data"] ∈ modelWithSearch.indexes ↔
      pyOrEmpty tableWithSearch.search ≠ []) :=
  c5_search_column_amended tableWithSearch [goodField] modelWithSearch rfl

/-- A field with an unknown type tag makes the whole column resolution fail. -/
lemma resolve_columns_error_of_mem :
    ∀ (l : List FieldMeta) (f : FieldMeta), f ∈ l →
      f.field_class = .error "UnknownFieldType" →
      ∃ e, resolve_columns l = .error e := by
  intro l
  induction l with
  | nil =>
    intro f h _
    exact absurd h (List.not_mem_nil f)
  | cons g rest ih =>
    intro f hmem hf
    cases hg : g.field_class with
    | error e =>
      refine ⟨e, ?_⟩
      unfold resolve_columns
      rw [hg]
    | ok c =>
      have hfr : f ∈ rest := by
        rcases List.mem_cons.mp hmem with h | h
        · subst h
          rw [hf] at hg
          cases hg
        · exact h
      rcases ih f hfr hf with ⟨e, he⟩
      refine ⟨e, ?_⟩
      unfold resolve_columns
      rw [hg, he]

/-- C8. A field whose type tag is in the catalog resolves to exactly one
physical column built by the catalog's constructor for that tag (catalog
membership being equivalent to the lookup succeeding); a field whose type tag
is absent fails with the `UnknownFieldType` error, and through it the whole
column resolution and the model compilation of any table listing that field
fail, so the table is neither created nor queried. -/
theorem c8_field_type_resolution (f : FieldMeta) :
    ((fieldTypesLookup f.type).isSome = true ↔ f.type ∈ FIELD_TYPES.map Prod.fst) ∧
    (∀ fc, fieldTypesLookup f.type = some fc →
      f.field_class = .ok ⟨fc, f.options, f.null⟩) ∧
    (f.type ∉ FIELD_TYPES.map Prod.fst →
      f.field_class = .error "UnknownFieldType" ∧
      (∀ l, f ∈ l → ∃ e, resolve_columns l = .error e) ∧
      (∀ (t : Table) (flds : List FieldMeta), f ∈ flds →
        ∃ e, t.compile flds = .error e)) := by
  have hmem : (fieldTypesLookup f.type).isSome = true ↔ f.type ∈ FIELD_TYPES.map Prod.fst := by
    unfold fieldTypesLookup
    constructor
    · intro h
      rw [Option.isSome_map'] at h
      rcases Option.isSome_iff_exists.mp h with ⟨pair, hp⟩
      have hpmem := List.mem_of_find?_eq_some hp
      have hpeq := List.find?_some hp
      rw [List.mem_map]
      exact ⟨pair, hpmem, by simpa using hpeq⟩
    · intro h
      rcases List.mem_map.mp h with ⟨pair, hpmem, hfst⟩
      rw [Option.isSome_map']
      by_contra hnone
      rw [Bool.not_eq_true] at hnone
      have hfnone : List.find? (fun p => p.1 == f.type) FIELD_TYPES = none := by
        cases hfind : List.find? (fun p => p.1 == f.type) FIELD_TYPES
        · rfl
        · rw [hfind] at hnone
          simp at hnone
      rw [List.find?_eq_none] at hfnone
      exact hfnone pair hpmem (by simp [hfst])
  refine ⟨hmem, ?_, ?_⟩
  · intro fc h
    unfold FieldMeta.field_class
    rw [h]
  · intro hnot
    have hlook : fieldTypesLookup f.type = none := by
      rcases ho : fieldTypesLookup f.type with _ | fc
      · rfl
      · exact absurd (hmem.mp (by rw [ho]; rfl)) hnot
    have herr : f.field_class = .error "UnknownFieldType" := by
      unfold FieldMeta.field_class
      rw [hlook]
    refine ⟨herr, fun l hl => resolve_columns_error_of_mem l f hl herr, ?_⟩
    intro t flds hf
    rcases resolve_columns_error_of_mem flds f hf herr with ⟨e, he⟩
    exact ⟨e, compile_eq_error t flds e he⟩

/-- C8 witness: the catalog tag `string` resolves to a `CharField` column,
while the unknown tag `uuid` fails with `UnknownFieldType`. -/
theorem c8_field_type_resolution_witness :
    goodField.field_class =
      Except.ok ⟨DjangoFieldClass.CharField, goodField.options, goodField.null⟩ ∧
    badField.field_class = Except.error "UnknownFieldType" :=
  ⟨(c8_field_type_resolution goodField).2.1 DjangoFieldClass.CharField rfl,
   ((c8_field_type_resolution badField).2.2 (by decide)).1⟩

/-- Looking up a key right after storing it yields the stored model. -/
lemma registryLookup_store (reg : Registry) (table_id : Nat) (m : CompiledModel) :
    registryLookup (registryStore reg table_id m) table_id = some m := by
  unfold registryLookup registryStore
  rw [List.find?_cons_of_pos _ (by simp)]

/-- A cache-enabled `get_model` on a registered id returns the registered
model and leaves the registry unchanged. -/
lemma get_model_cache_hit (t : Table) (flds : List FieldMeta) (reg : Registry)
    (m : CompiledModel) (h : registryLookup reg t.id = some m) :
    t.get_model flds true reg = .ok (m, reg) := by
  unfold Table.get_model
  simp [h]

/-- A cache miss with successful compilation registers the compiled model. -/
lemma get_model_miss (t : Table) (flds : List FieldMeta) (reg : Registry)
    (cache : Bool) (hmiss : (if cache then registryLookup reg t.id else none) = none)
    (m : CompiledModel) (hc : t.compile flds = .ok m) :
    t.get_model flds cache reg = .ok (m, registryStore reg t.id m) := by
  unfold Table.get_model
  rw [hmiss, hc]

/-- C10. Every `get_model` call that does not take the cache-hit path - any
cache-disabled call, or a call on an unregistered table id - stores the
freshly compiled model in the registry under the table's id, making it the
model that a subsequent cache-enabled `get_model` for the same id returns
along with the unchanged registry. -/
theorem c10_registry_stores_fresh_model (t : Table) (flds : List FieldMeta)
    (reg : Registry) (m : CompiledModel) (reg' : Registry) (cache : Bool)
    (hmiss : cache = true → registryLookup reg t.id = none)
    (hok : t.get_model flds cache reg = .ok (m, reg')) :
    reg' = registryStore reg t.id m ∧
    registryLookup reg' t.id = some m ∧
    t.get_model flds true reg' = .ok (m, reg') := by
  have hnone : (if cache then registryLookup reg t.id else none) = none := by
    cases cache
    · rfl
    · simpa using hmiss rfl
  cases hc : t.compile flds with
  | error e =>
    have : t.get_model flds cache reg = .error e := by
      unfold Table.get_model
      rw [hnone, hc]
    rw [this] at hok
    cases hok
  | ok m2 =>
    rw [get_model_miss t flds reg cache hnone m2 hc] at hok
    injection hok with hok
    injection hok with hm hr
    subst hm
    subst hr
    exact ⟨rfl, registryLookup_store reg t.id m2,
      get_model_cache_hit t flds _ m2 (registryLookup_store reg t.id m2)⟩

/-- C10 witness: compiling `tableReg` with the cache disabled on an empty
registry stores `modelReg` under id 7, and a cache-enabled call then returns
it unchanged. -/
theorem c10_registry_stores_fresh_model_witness :
    registryStore [] tableReg.id modelReg = registryStore [] tableReg.id modelReg ∧
    registryLookup (registryStore [] tableReg.id modelReg) tableReg.id = some modelReg ∧
    tableReg.get_model [goodField] true (registryStore [] tableReg.id modelReg) =
      .ok (modelReg, registryStore [] tableReg.id modelReg) :=
  c10_registry_stores_fresh_model tableReg [goodField] [] modelReg
    (registryStore [] tableReg.id modelReg) false (fun h => nomatch h) rfl

/-- The text collation is total. -/
lemma chars_le_total : ∀ a b : List Char, chars_le a b = true ∨ chars_le b a = true := by
  intro a
  induction a with
  | nil => intro b; left; rfl
  | cons x xs ih =>
    intro b
    cases b with
    | nil => right; rfl
    | cons y ys =>
      by_cases hxy : x = y
      · subst hxy
        rcases ih ys with h | h
        · left
          simpa [chars_le] using h
        · right
          simpa [chars_le] using h
      · rcases lt_or_gt_of_ne hxy with h | h
        · left
          simp [chars_le, hxy, h]
        · right
          simp [chars_le, Ne.symm hxy, h]

/-- The text collation is transitive. -/
lemma chars_le_trans : ∀ a b c : List Char,
    chars_le a b = true → chars_le b c = true → chars_le a c = true := by
  intro a
  induction a with
  | nil => intro b c _ _; rfl
  | cons x xs ih =>
    intro b c h1 h2
    cases b with
    | nil => simp [chars_le] at h1
    | cons y ys =>
      cases c with
      | nil => simp [chars_le] at h2
      | cons z zs =>
        by_cases hxy : x = y
        · subst hxy
          by_cases hyz : x = z
          · subst hyz
            simp only [chars_le, if_pos rfl] at h1 h2 ⊢
            exact ih ys zs h1 h2
          · simp [chars_le, hyz] at h2 ⊢
            exact h2
        · by_cases hyz : y = z
          · subst hyz
            simp [chars_le, hxy] at h1 ⊢
            exact h1
          · simp [chars_le, hxy] at h1
            simp [chars_le, hyz] at h2
            by_cases hxz : x = z
            · exfalso
              subst hxz
              exact absurd (lt_trans h1 h2) (lt_irrefl x)
            · simp [chars_le, hxz]
              exact lt_trans h1 h2

/-- `str_le` is total. -/
lemma str_le_total (a b : String) : str_le a b = true ∨ str_le b a = true :=
  chars_le_total a.data b.data

/-- `str_le` is transitive. -/
lemma str_le_trans (a b c : String) :
    str_le a b = true → str_le b c = true → str_le a c = true :=
  chars_le_trans a.data b.data c.data

/-- C9. For a field marked `has_choices` and `show_on_frontend`,
`update_choices` caches exactly the ordered distinct values of the column,
each passed through `str(...)`: the cached list is sorted by the text
collation, has no duplicates, and holds precisely the values occurring in
the column. -/
theorem c9_update_choices_distinct_ordered (f : FieldMeta) (vals : List String)
    (h1 : f.has_choices = true) (h2 : f.show_on_frontend = true) :
    (f.update_choices vals).choices =
      some ((db_distinct_ordered vals).map (fun v => toString v)) ∧
    List.Sorted (fun a b => str_le a b = true) (db_distinct_ordered vals) ∧
    (db_distinct_ordered vals).Nodup ∧
    (∀ v, v ∈ db_distinct_ordered vals ↔ v ∈ vals) := by
  refine ⟨rfl, ?_, List.nodup_dedup _, ?_⟩
  · haveI : IsTotal String (fun a b => str_le a b = true) := ⟨str_le_total⟩
    haveI : IsTrans String (fun a b => str_le a b = true) := ⟨str_le_trans⟩
    exact List.Pairwise.sublist (List.dedup_sublist _)
      (List.sorted_insertionSort _ vals)
  · intro v
    rw [db_distinct_ordered, List.mem_dedup]
    exact (List.perm_insertionSort _ vals).mem_iff

/-- C9 witness: over a column holding `["a", "a", "b"]` the cached choices
are `["a", "b"]`. -/
theorem c9_update_choices_distinct_ordered_witness :
    (choiceField.update_choices ["a", "a", "b"]).choices = some ["a", "b"] := by
  have h := (c9_update_choices_distinct_ordered choiceField ["a", "a", "b"] rfl rfl).1
  exact h.trans (by decide)

/-- C1 witness: the example request - default ordering `-created_at`,
filterable `status`, requested `created_at` - resolves to ascending
`created_at`. -/
theorem c1_apply_ordering_resolution_witness :
    apply_ordering ["-created_at"] ["status"] ["created_at"] = some ["created_at"] := by
  have h := c1_apply_ordering_resolution ["-created_at"] ["status"] ["created_at"]
  exact h.trans (by decide)

/-- C2 witness: filterable `status` with params `status=open`, `search=urgent`
and search columns declared yields the equality predicate and the full-text
predicate. -/
theorem c2_apply_filters_characterization_witness :
    apply_filters (some ["status"]) ["title"]
        [("status", some "open"), ("search", some "urgent")] =
      [Predicate.eq "status" "open", Predicate.search "urgent"] := by
  have h := (c2_apply_filters_characterization ["status"] ["title"]
    [("status", some "open"), ("search", some "urgent")]).1
  exact h.trans (by decide)

/-- C3 witness: a fresh unfiltered queryset whose statistics lookup yields 5
counts 5. -/
theorem c3_count_memo_and_fallback_witness :
    (count (⟨[], none, some 5, 7⟩ : QueryState)).1 = 5 :=
  (c3_count_memo_and_fallback ⟨[], none, none, 0⟩ (Predicate.search "s") [] 5 7 none).2.1

/-- C4 witness: with `ordering = ["x"]`, `filtering = ["x"]` and a non-empty
search set, exactly one derived index references `x`. -/
theorem c4_index_derivation_witness :
    ((deriveIndexes ["x"] ["x"] ["t"]).filter
      (fun i => i.fieldNames.contains "x")).length = 1 :=
  (c4_index_derivation ["x"] ["x"] ["t"]).2 ["t"]

/-- C7 witness: creating a table with one declared index and indexes disabled
runs the DDL on an empty index set and leaves the declared index list
restored. -/
theorem c7_create_table_restores_indexes_witness :
    (create_table [Index.btree ["x"]] false (fun _ : List Index => Except.ok ())).1 =
      Except.ok () ∧
    (create_table [Index.btree ["x"]] false (fun _ : List Index => Except.ok ())).2 =
      [Index.btree ["x"]] ∧
    create_indexes
        ((create_table [Index.btree ["x"]] false (fun _ : List Index => Except.ok ())).2) =
      [Index.btree ["x"]] :=
  c7_create_table_restores_indexes [Index.btree ["x"]] false (fun _ => Except.ok ())
